import Mathlib

/-!
Verification of the cached-transition Turing machine interpreter
(`turing_machine.py`, class `TuringMachineWithCache`).

The embedding is shallow: tape symbols are `Char` (the source treats every
symbol as a single atomic token, with `'B'` the blank and `'$'` the left
sentinel), states are `String`, and the transition dictionary is the
function built left-to-right from the description entries, so that a later
entry with the same key shadows an earlier one exactly as a Python `dict`
assignment does.  The `while steps < max_steps` loop is rendered as
structural recursion on the remaining step budget `max_steps - steps`,
which coincides with the source loop because `steps` starts at `0` and is
incremented exactly once per applied transition.
-/

namespace TMCache

/-- Transition-table key: `(state, cache_symbol, tape_symbol)`
(source line: `key = (current_state, current_cache, current_symbol)`). -/
abbrev TKey := String × Char × Char

/-- Transition-table value: `(next_state, new_cache, new_tape_symbol, move)`. -/
abbrev TVal := String × Char × Char × String

/-- One entry of the `transitions` list of the machine description, with
`read = [tape_symbol, cache_symbol]` and `write = [new_tape_symbol, new_cache_symbol]`
(the source reads `read_list[0]`, `read_list[1]`, `write_list[0]`, `write_list[1]`). -/
structure TransEntry where
  state : String
  read : Char × Char
  write : Char × Char
  move : String
  next : String
deriving DecidableEq, Repr

/-- The key under which `__init__` stores the entry: `(state, cache_read, tape_read)`. -/
def keyOf (e : TransEntry) : TKey := (e.state, e.read.2, e.read.1)

/-- The value `__init__` stores for the entry: `(next_state, cache_write, tape_write, move)`. -/
def valOf (e : TransEntry) : TVal := (e.next, e.write.2, e.write.1, e.move)

/-- The transition dictionary built by `__init__`: the entries are inserted in
order, and a later insertion at the same key overwrites the earlier one, as in
`self.transitions[(state, cache_read, tape_read)] = (next_state, cache_write, tape_write, move)`. -/
def buildTransitions (entries : List TransEntry) : TKey → Option TVal :=
  entries.foldl (fun f e => fun k => if k = keyOf e then some (valOf e) else f k)
    (fun _ => none)

/-- The fields of a `TuringMachineWithCache` instance after `__init__`. -/
structure Machine where
  states : List String
  input_alphabet : List Char
  tape_alphabet : List Char
  cache_alphabet : List Char
  initial_state : String
  initial_cache : Char
  accept_states : List String
  transitions : TKey → Option TVal
  inputs : List String

/-- The per-run mutable state of the `run` loop: the materialized tape, the
head position (a Python `int`, so it may go negative), the current state, the
current cache symbol, and the count of applied transitions. -/
structure Config where
  tape : List Char
  head : Int
  state : String
  cache : Char
  steps : Nat
deriving DecidableEq, Repr

/-- Reasons the interpreter rejects. -/
inductive Reason where
  | leftEdge
  | noTransition
  | stepLimit
deriving DecidableEq, Repr

/-- Verdict of a run. -/
inductive Outcome where
  | accepted
  | rejected (r : Reason)
deriving DecidableEq, Repr

/-- The boolean the source returns: `True` exactly in the accept branch. -/
def Outcome.isAccepted : Outcome → Bool
  | .accepted => true
  | .rejected _ => false

/-- Result of one pass through the loop body. -/
inductive LoopStep where
  | accept (c : Config)
  | reject (r : Reason) (c : Config)
  | next (c : Config)
deriving DecidableEq, Repr

/-- Tape extension (`while head_position >= len(tape): tape.append('B')`):
blanks are appended until the length first exceeds `pos`. -/
def extendTape (tape : List Char) (pos : Nat) : List Char :=
  tape ++ List.replicate (pos + 1 - tape.length) 'B'

/-- The symbol the loop reads at the head, after extending the tape
(`current_symbol = tape[head_position]`). -/
def readSymbol (c : Config) : Char :=
  (extendTape c.tape c.head.toNat).getD c.head.toNat 'B'

/-- One pass through the body of the `while` loop: accept check, bounds
check, tape extension and read, table lookup, and transition application
(write symbol, update cache, move head by the `move` field with Stay as the
default, set next state, increment the step counter). -/
def stepOnce (m : Machine) (c : Config) : LoopStep :=
  if c.state ∈ m.accept_states then
    .accept c
  else if c.head < 0 then
    .reject .leftEdge c
  else
    match m.transitions (c.state, c.cache, readSymbol c) with
    | none =>
        .reject .noTransition
          (Config.mk (extendTape c.tape c.head.toNat) c.head c.state c.cache c.steps)
    | some (next_state, new_cache, write_symbol, move) =>
        .next (Config.mk
          ((extendTape c.tape c.head.toNat).set c.head.toNat write_symbol)
          (if move = "R" then c.head + 1
           else if move = "L" then c.head - 1
           else c.head)
          next_state new_cache (c.steps + 1))

/-- The `while steps < max_steps` loop, by recursion on the remaining step
budget: with `fuel = max_steps - steps` the guard `steps < max_steps` is
exactly `0 < fuel`, and each applied transition consumes one unit. When the
budget is exhausted the source falls out of the loop and rejects with the
step-limit reason. -/
def runLoop (m : Machine) (fuel : Nat) (c : Config) : Outcome × Config :=
  match fuel with
  | 0 => (.rejected .stepLimit, c)
  | n + 1 =>
      match stepOnce m c with
      | .accept c' => (.accepted, c')
      | .reject r c' => (.rejected r, c')
      | .next c' => runLoop m n c'

/-- Trailing-blank trimming of `_get_tape_string`, phrased on the reversed
list: `while len(display_tape) > 1 and display_tape[-1] == 'B': display_tape.pop()`. -/
def popTrailingRev : List Char → List Char
  | x :: y :: ys => if x = 'B' then popTrailingRev (y :: ys) else x :: y :: ys
  | l => l

/-- `_get_tape_string`: copy the tape, pop trailing blanks while more than one
symbol remains, fall back to `['B']` when empty, and join. -/
def getTapeString (t : List Char) : String :=
  let d := (popTrailingRev t.reverse).reverse
  String.mk (if d.isEmpty then ['B'] else d)

/-- Python `str.replace(c, '')` for a single-character pattern: every
occurrence of the character is removed. -/
def removeChar (c : Char) (s : String) : String :=
  String.mk (s.toList.filter (fun a => a ≠ c))

/-- The output string each `return` of `run` builds:
`self._get_tape_string(tape).replace('B', '').replace('$', '')`. -/
def outputString (t : List Char) : String :=
  removeChar '$' (removeChar 'B' (getTapeString t))

/-- The initial tape of `run`: `['$'] + list(input_string) + ['B']`. -/
def initTape (s : String) : List Char :=
  '$' :: s.toList ++ ['B']

/-- The configuration `run` creates fresh on every call: the initial tape,
head at position 1 (just after the sentinel), the machine's initial state and
initial cache, and step counter 0. -/
def initConfig (m : Machine) (s : String) : Config :=
  Config.mk (initTape s) 1 m.initial_state m.initial_cache 0

/-- The run loop together with its final configuration. `max_steps` is a
Python `int`; a non-positive value leaves no step budget, so the loop body is
never entered. -/
def runFull (m : Machine) (s : String) (max_steps : Int) : Outcome × Config :=
  runLoop m max_steps.toNat (initConfig m s)

/-- `run`: returns the pair of the verdict boolean and the rendered output
string of the final tape. -/
def run (m : Machine) (s : String) (max_steps : Int) : Bool × String :=
  let r := runFull m s max_steps
  (r.1.isAccepted, outputString r.2.tape)

/-! ### Specification-side renderings of the output string

`specOutput` follows the (amended) spec wording: trim trailing blanks, then
remove every occurrence of the sentinel and of the blank.  `claimOutput`
follows the original claim wording literally: trim trailing blanks, remove
one leading sentinel, then remove the blanks.  Both are written
independently of `outputString`, which mirrors the source expression. -/

/-- Trailing blanks removed, phrased spec-side (drop the maximal blank
suffix, with no "keep one symbol" proviso). -/
def trimTrailingBlanksSpec (t : List Char) : List Char :=
  (t.reverse.dropWhile (fun c => c == 'B')).reverse

/-- Spec-side output rendering, per the amended claim: trailing blanks
trimmed, then every `'$'` and every `'B'` removed. -/
def specOutput (t : List Char) : String :=
  String.mk ((trimTrailingBlanksSpec t).filter (fun c => !(c == 'B' || c == '$')))

/-- The original claim's output rendering, literally: trailing blanks
trimmed, then the leading sentinel `'$'` (only) and all blanks removed. -/
def claimOutput (t : List Char) : String :=
  let d := trimTrailingBlanksSpec t
  let d' := match d with
    | '$' :: rest => rest
    | l => l
  String.mk (d'.filter (fun c => c != 'B'))

/-! ### Concrete machines used in scenarios, counterexamples and witnesses -/

/-- The deliberately looping machine of the spec scenario: a single state,
a Stay self-transition on every tape symbol, no accept states. -/
def loopM : Machine :=
  Machine.mk ["q0"] ['B'] ['B', '$'] ['B'] "q0" 'B' []
    (buildTransitions [TransEntry.mk "q0" ('B', 'B') ('B', 'B') "S" "q0",
                       TransEntry.mk "q0" ('$', 'B') ('$', 'B') "S" "q0"]) []

/-- A machine that moves left twice and enters its accept state exactly as
the head reaches position `-1`. -/
def leftAcceptM : Machine :=
  Machine.mk ["q0", "q1", "qa"] ['B'] ['B', '$'] ['B'] "q0" 'B' ["qa"]
    (buildTransitions [TransEntry.mk "q0" ('B', 'B') ('B', 'B') "L" "q1",
                       TransEntry.mk "q1" ('$', 'B') ('$', 'B') "L" "qa"]) []

/-- A machine whose single transition writes the sentinel `'$'` at tape
position 1 and then halts with no transition defined. -/
def writeSentinelM : Machine :=
  Machine.mk ["q0", "q1"] ['B'] ['B', '$'] ['B'] "q0" 'B' []
    (buildTransitions [TransEntry.mk "q0" ('B', 'B') ('$', 'B') "R" "q1"]) []

/-- A machine whose initial state is an accept state and whose table is
empty. -/
def acceptAtStartM : Machine :=
  Machine.mk ["p"] ['a'] ['a', 'B', '$'] ['B'] "p" 'B' ["p"]
    (buildTransitions []) []

/-- A machine with an empty transition table and a non-accept initial
state. -/
def emptyTableM : Machine :=
  Machine.mk ["z"] ['a'] ['a', 'B', '$'] ['B'] "z" 'B' []
    (buildTransitions []) []

/-- Same core description as `acceptAtStartM` but with different values in
the fields `run` never reads (`states`, the alphabets, `inputs`). -/
def acceptAtStartM' : Machine :=
  Machine.mk [] [] [] [] "p" 'B' ["p"]
    (buildTransitions []) ["x", "y"]

/-- A description entry, and a second entry with the same key but a
different value. -/
def wEntryA : TransEntry := TransEntry.mk "w" ('a', 'B') ('b', 'B') "R" "w1"

/-- Second entry with the same key `("w", 'B', 'a')` as `wEntryA`. -/
def wEntryB : TransEntry := TransEntry.mk "w" ('a', 'B') ('c', 'B') "L" "w2"

/-! ### Basic lemmas about the loop body and the loop -/

theorem runLoop_zero (m : Machine) (c : Config) :
    runLoop m 0 c = (.rejected .stepLimit, c) := rfl

theorem runLoop_succ_accept {m : Machine} {c c' : Config} (n : Nat)
    (h : stepOnce m c = .accept c') :
    runLoop m (n + 1) c = (.accepted, c') := by
  rw [runLoop, h]

theorem runLoop_succ_reject {m : Machine} {c c' : Config} {r : Reason} (n : Nat)
    (h : stepOnce m c = .reject r c') :
    runLoop m (n + 1) c = (.rejected r, c') := by
  rw [runLoop, h]

theorem runLoop_succ_next {m : Machine} {c c' : Config} (n : Nat)
    (h : stepOnce m c = .next c') :
    runLoop m (n + 1) c = runLoop m n c' := by
  rw [runLoop, h]

theorem stepOnce_of_accept {m : Machine} {c : Config}
    (h : c.state ∈ m.accept_states) : stepOnce m c = .accept c := by
  unfold stepOnce
  rw [if_pos h]

theorem stepOnce_of_left_edge {m : Machine} {c : Config}
    (h1 : c.state ∉ m.accept_states) (h2 : c.head < 0) :
    stepOnce m c = .reject .leftEdge c := by
  unfold stepOnce
  rw [if_neg h1, if_pos h2]

theorem stepOnce_of_no_transition {m : Machine} {c : Config}
    (h1 : c.state ∉ m.accept_states) (h2 : ¬ c.head < 0)
    (h3 : m.transitions (c.state, c.cache, readSymbol c) = none) :
    stepOnce m c =
      .reject .noTransition
        (Config.mk (extendTape c.tape c.head.toNat) c.head c.state c.cache c.steps) := by
  unfold stepOnce
  rw [if_neg h1, if_neg h2, h3]

theorem stepOnce_of_transition {m : Machine} {c : Config}
    {ns : String} {nc : Char} {ws : Char} {mv : String}
    (h1 : c.state ∉ m.accept_states) (h2 : ¬ c.head < 0)
    (h3 : m.transitions (c.state, c.cache, readSymbol c) = some (ns, nc, ws, mv)) :
    stepOnce m c =
      .next (Config.mk
        ((extendTape c.tape c.head.toNat).set c.head.toNat ws)
        (if mv = "R" then c.head + 1 else if mv = "L" then c.head - 1 else c.head)
        ns nc (c.steps + 1)) := by
  unfold stepOnce
  rw [if_neg h1, if_neg h2, h3]

theorem stepOnce_accept_eq {m : Machine} {c c' : Config}
    (h : stepOnce m c = .accept c') : c' = c := by
  unfold stepOnce at h
  split at h
  · cases h; rfl
  · split at h
    · cases h
    · split at h <;> cases h

theorem stepOnce_reject_steps {m : Machine} {c c' : Config} {r : Reason}
    (h : stepOnce m c = .reject r c') : c'.steps = c.steps := by
  unfold stepOnce at h
  split at h
  · cases h
  · split at h
    · cases h; rfl
    · split at h
      · cases h; rfl
      · cases h

theorem stepOnce_next_steps {m : Machine} {c c' : Config}
    (h : stepOnce m c = .next c') : c'.steps = c.steps + 1 := by
  unfold stepOnce at h
  split at h
  · cases h
  · split at h
    · cases h
    · split at h
      · cases h
      · cases h; rfl

theorem runLoop_steps_le (m : Machine) (fuel : Nat) (c : Config) :
    (runLoop m fuel c).2.steps ≤ c.steps + fuel := by
  induction fuel generalizing c with
  | zero => simp [runLoop_zero]
  | succ n ih =>
      rw [runLoop]
      cases hs : stepOnce m c with
      | accept c' =>
          have := stepOnce_accept_eq hs
          subst this
          simp
      | reject r c' =>
          have := stepOnce_reject_steps hs
          simp [this]
      | next c' =>
          have hst := stepOnce_next_steps hs
          calc (runLoop m n c').2.steps ≤ c'.steps + n := ih c'
            _ = c.steps + (n + 1) := by omega

/-! ### Tape extension -/

theorem extendTape_of_lt {t : List Char} {pos : Nat} (h : pos < t.length) :
    extendTape t pos = t := by
  unfold extendTape
  have h0 : pos + 1 - t.length = 0 := by omega
  rw [h0]
  simp

theorem length_initTape (s : String) : (initTape s).length = s.toList.length + 2 := by
  simp [initTape]

/-! ### Output rendering: the source expression agrees with the spec-side one -/

theorem popTrailingRev_filter {p : Char → Bool} (hp : p 'B' = false) (r : List Char) :
    (popTrailingRev r).filter p = (r.dropWhile (fun c => c == 'B')).filter p := by
  induction r with
  | nil => rfl
  | cons x xs ih =>
      cases xs with
      | nil =>
          by_cases hx : x = 'B'
          · subst hx
            simp [popTrailingRev, List.dropWhile, List.filter, hp]
          · have hxb : (x == 'B') = false := by simp [hx]
            simp [popTrailingRev, List.dropWhile, List.filter, hxb]
      | cons y ys =>
          by_cases hx : x = 'B'
          · subst hx
            have h1 : popTrailingRev ('B' :: y :: ys) = popTrailingRev (y :: ys) := by
              simp [popTrailingRev]
            have h2 : ('B' :: y :: ys).dropWhile (fun c => c == 'B')
                = (y :: ys).dropWhile (fun c => c == 'B') := by
              simp [List.dropWhile]
            rw [h1, h2]
            exact ih
          · have hxb : (x == 'B') = false := by simp [hx]
            have h1 : popTrailingRev (x :: y :: ys) = x :: y :: ys := by
              simp [popTrailingRev, hx]
            have h2 : (x :: y :: ys).dropWhile (fun c => c == 'B') = x :: y :: ys := by
              simp [List.dropWhile, hxb]
            rw [h1, h2]

theorem outputString_eq_specOutput (t : List Char) : outputString t = specOutput t := by
  unfold outputString specOutput removeChar getTapeString trimTrailingBlanksSpec
  have htl : ∀ (l : List Char), (String.mk l).toList = l := fun l => rfl
  rw [htl]
  simp only [htl]
  rw [List.filter_filter]
  have hguard :
      (if ((popTrailingRev t.reverse).reverse).isEmpty then ['B']
        else (popTrailingRev t.reverse).reverse).filter
          (fun a => decide (a ≠ '$') && decide (a ≠ 'B'))
      = ((popTrailingRev t.reverse).reverse).filter
          (fun a => decide (a ≠ '$') && decide (a ≠ 'B')) := by
    split
    · next hemp =>
        rw [List.isEmpty_iff.mp hemp]
        rfl
    · rfl
  rw [hguard]
  rw [List.filter_reverse, List.filter_reverse]
  rw [popTrailingRev_filter (by decide) t.reverse]
  congr 1
  congr 1
  apply List.filter_congr
  intro x _
  by_cases h1 : x = 'B'
  · subst h1; decide
  · by_cases h2 : x = '$'
    · subst h2; decide
    · simp [h1, h2]

/-! ### The transition dictionary is the last matching description entry -/

theorem buildTransitions_foldl (es : List TransEntry) (f : TKey → Option TVal) (k : TKey) :
    (es.foldl (fun f e => fun k => if k = keyOf e then some (valOf e) else f k) f) k =
      match es.reverse.find? (fun e => keyOf e == k) with
      | some e => some (valOf e)
      | none => f k := by
  induction es generalizing f with
  | nil => rfl
  | cons e es ih =>
      rw [List.foldl_cons, ih]
      rw [List.reverse_cons, List.find?_append]
      cases hf : es.reverse.find? (fun e => keyOf e == k) with
      | some e' => simp [Option.or]
      | none =>
          simp only [Option.none_or]
          by_cases hk : keyOf e = k
          · have : (List.find? (fun e => keyOf e == k) [e]) = some e := by
              simp [List.find?, hk]
            rw [this]
            simp [hk.symm]
          · have hbe : (keyOf e == k) = false := by simp [hk]
            have hfe : (List.find? (fun e => keyOf e == k) [e]) = none := by
              simp [List.find?, hbe]
            rw [hfe]
            have hk' : ¬ k = keyOf e := fun h => hk h.symm
            simp [hk']

theorem buildTransitions_eq_findLast (es : List TransEntry) (k : TKey) :
    buildTransitions es k = (es.reverse.find? (fun e => keyOf e == k)).map valOf := by
  unfold buildTransitions
  rw [buildTransitions_foldl]
  cases es.reverse.find? (fun e => keyOf e == k) <;> rfl

/-! ### The run depends only on the fields the loop reads -/

theorem stepOnce_congr {m m' : Machine} (c : Config)
    (ht : m.transitions = m'.transitions) (ha : m.accept_states = m'.accept_states) :
    stepOnce m c = stepOnce m' c := by
  unfold stepOnce
  rw [ht, ha]

theorem runLoop_congr {m m' : Machine} (fuel : Nat) (c : Config)
    (ht : m.transitions = m'.transitions) (ha : m.accept_states = m'.accept_states) :
    runLoop m fuel c = runLoop m' fuel c := by
  induction fuel generalizing c with
  | zero => rfl
  | succ n ih =>
      rw [runLoop, runLoop, stepOnce_congr c ht ha]
      cases stepOnce m' c with
      | accept c' => rfl
      | reject r c' => rfl
      | next c' => exact ih c'

/-! ### The looping single-state machine -/

/-- The configuration `loopM` stays in forever, parametrized by the step
count. -/
def loopCfg (n : Nat) : Config := Config.mk ['$', 'B'] 1 "q0" 'B' n

theorem loopM_stepOnce (n : Nat) :
    stepOnce loopM (loopCfg n) = .next (loopCfg (n + 1)) := rfl

theorem loopM_runLoop (fuel n : Nat) :
    runLoop loopM fuel (loopCfg n) = (.rejected .stepLimit, loopCfg (n + fuel)) := by
  induction fuel generalizing n with
  | zero => rfl
  | succ k ih =>
      rw [runLoop_succ_next k (loopM_stepOnce n)]
      exact (ih (n + 1)).trans (by simp [loopCfg, Nat.add_assoc, Nat.add_comm 1 k])

/-! ### Claim theorems -/

/-- C1: the acceptance check comes before the tape read and the table
lookup: any in-progress configuration whose state is an accept state
immediately yields `accept` with the configuration untouched, and whenever
the initial state is an accept state, `run` under the default ceiling of
10000 accepts any input with 0 applied transitions and the initial
configuration unchanged. -/
theorem accept_checked_before_read (m : Machine) (s : String)
    (h : m.initial_state ∈ m.accept_states) :
    (∀ c : Config, c.state ∈ m.accept_states → stepOnce m c = .accept c) ∧
    runFull m s 10000 = (.accepted, initConfig m s) := by
  refine ⟨fun c hc => stepOnce_of_accept hc, ?_⟩
  have hfuel : ((10000 : Int)).toNat = 9999 + 1 := rfl
  rw [runFull, hfuel]
  exact runLoop_succ_accept 9999 (stepOnce_of_accept h)

/-- C1 witness: a machine whose initial state is accepting accepts `"ab"`
immediately. -/
theorem accept_checked_before_read_witness :
    runFull acceptAtStartM "ab" 10000 = (.accepted, initConfig acceptAtStartM "ab") :=
  (accept_checked_before_read acceptAtStartM "ab" (by decide)).2

/-- C2: a missing key `(state, cache, symbol)` in the transition table makes
the loop return `Rejected` with the no-transition reason, and a machine with
an empty table and a non-accept initial state rejects every input with 0
applied transitions. -/
theorem no_transition_rejects (m : Machine) (s : String) (ms : Int) :
    (∀ (c : Config) (n : Nat), c.state ∉ m.accept_states → ¬ c.head < 0 →
        m.transitions (c.state, c.cache, readSymbol c) = none →
        runLoop m (n + 1) c =
          (.rejected .noTransition,
            Config.mk (extendTape c.tape c.head.toNat) c.head c.state c.cache c.steps)) ∧
    ((∀ k, m.transitions k = none) → m.initial_state ∉ m.accept_states → 0 < ms →
        runFull m s ms = (.rejected .noTransition, initConfig m s)) := by
  constructor
  · intro c n h1 h2 h3
    exact runLoop_succ_reject n (stepOnce_of_no_transition h1 h2 h3)
  · intro hall hna hms
    obtain ⟨n, hn⟩ : ∃ n, ms.toNat = n + 1 := ⟨ms.toNat - 1, by omega⟩
    rw [runFull, hn]
    have hstep := @stepOnce_of_no_transition m (initConfig m s) hna
      (by simp [initConfig]) (hall _)
    rw [runLoop_succ_reject n hstep]
    have hext : extendTape (initTape s) ((1 : Int)).toNat = initTape s :=
      extendTape_of_lt (by rw [length_initTape]; omega)
    show (Outcome.rejected Reason.noTransition,
        Config.mk (extendTape (initTape s) ((1 : Int)).toNat) 1 m.initial_state m.initial_cache 0)
      = (Outcome.rejected Reason.noTransition, initConfig m s)
    rw [hext]
    rfl

/-- C2 witness: the empty-table machine rejects `"ab"` with the
no-transition reason and an unchanged initial configuration. -/
theorem no_transition_rejects_witness :
    runFull emptyTableM "ab" 10 = (.rejected .noTransition, initConfig emptyTableM "ab") :=
  (no_transition_rejects emptyTableM "ab" 10).2 (fun _ => rfl) (by decide) (by decide)

/-- C3: the loop applies at most `max_steps` transitions (the final step
count never exceeds the ceiling), an exhausted step budget yields `Rejected`
with the step-limit reason, and the single-state Stay-looping machine with
`max_steps = 100` rejects with exactly 100 applied transitions. -/
theorem step_limit_exceeded :
    (∀ (m : Machine) (s : String) (ms : Int), (runFull m s ms).2.steps ≤ ms.toNat) ∧
    (∀ (m : Machine) (c : Config), runLoop m 0 c = (.rejected .stepLimit, c)) ∧
    runFull loopM "" 100 = (.rejected .stepLimit, loopCfg 100) := by
  refine ⟨?_, ?_, ?_⟩
  · intro m s ms
    have h := runLoop_steps_le m ms.toNat (initConfig m s)
    simpa [runFull, initConfig] using h
  · intro m c
    rfl
  · have h := loopM_runLoop 100 0
    show runLoop loopM ((100 : Int)).toNat (initConfig loopM "") = _
    rw [show ((100 : Int)).toNat = 100 from rfl,
        show initConfig loopM "" = loopCfg 0 from rfl]
    simpa using h

/-- C4 (amended): when the head is negative the loop rejects with the
left-edge reason provided the current state is not an accept state; when the
current state is an accept state the acceptance check fires first and the
run accepts. -/
theorem left_edge_rejects_unless_accepting (m : Machine) (c : Config) (n : Nat)
    (hneg : c.head < 0) :
    (c.state ∉ m.accept_states → runLoop m (n + 1) c = (.rejected .leftEdge, c)) ∧
    (c.state ∈ m.accept_states → runLoop m (n + 1) c = (.accepted, c)) :=
  ⟨fun hna => runLoop_succ_reject n (stepOnce_of_left_edge hna hneg),
   fun ha => runLoop_succ_accept n (stepOnce_of_accept ha)⟩

/-- C4 witness: with head `-1` and a non-accept state the loop rejects with
the left-edge reason. -/
theorem left_edge_rejects_unless_accepting_witness :
    runLoop emptyTableM 1 (Config.mk ['$', 'B'] (-1) "z" 'B' 3)
      = (.rejected .leftEdge, Config.mk ['$', 'B'] (-1) "z" 'B' 3) :=
  (left_edge_rejects_unless_accepting emptyTableM
    (Config.mk ['$', 'B'] (-1) "z" 'B' 3) 0 (by decide)).1 (by decide)

/-- C4 counterexample: `leftAcceptM` reaches head position `-1` exactly when
its state becomes accepting, and the run returns Accepted, not Rejected with
the left-edge reason, refuting the claim's "regardless of the current state
— even when the current state is an accept state". -/
theorem left_edge_accept_wins_counterexample :
    runFull leftAcceptM "" 10 = (.accepted, Config.mk ['$', 'B'] (-1) "qa" 'B' 2) ∧
    "qa" ∈ leftAcceptM.accept_states ∧
    (run leftAcceptM "" 10).1 = true := by
  decide

/-- C5: an applied transition moves the head by exactly `+1` for move `"R"`,
by exactly `-1` for move `"L"`, and leaves it unchanged for any other move
value, and an unrecognized move still produces a normal `next` step (no
error, no rejection). -/
theorem move_field_updates_head (m : Machine) (c : Config)
    (ns : String) (nc ws : Char) (mv : String)
    (h1 : c.state ∉ m.accept_states) (h2 : ¬ c.head < 0)
    (h3 : m.transitions (c.state, c.cache, readSymbol c) = some (ns, nc, ws, mv)) :
    ∃ c', stepOnce m c = .next c' ∧
      (mv = "R" → c'.head = c.head + 1) ∧
      (mv = "L" → c'.head = c.head - 1) ∧
      (mv ≠ "R" → mv ≠ "L" → c'.head = c.head) := by
  refine ⟨_, stepOnce_of_transition h1 h2 h3, ?_, ?_, ?_⟩
  · intro hR
    simp [hR]
  · intro hL
    simp [hL]
  · intro hR hL
    simp [hR, hL]

/-- C5 witness: the Stay-looping machine's move value `"S"` is neither `"R"`
nor `"L"` and leaves the head unchanged while producing a `next` step. -/
theorem move_field_updates_head_witness :
    ∃ c', stepOnce loopM (initConfig loopM "") = .next c' ∧
      ("S" = "R" → c'.head = (initConfig loopM "").head + 1) ∧
      ("S" = "L" → c'.head = (initConfig loopM "").head - 1) ∧
      ("S" ≠ "R" → "S" ≠ "L" → c'.head = (initConfig loopM "").head) :=
  move_field_updates_head loopM (initConfig loopM "") "q0" 'B' 'B' "S"
    (by decide) (by decide) (by decide)

/-- C6: a read at a position at or past the materialized length extends the
tape to exactly `position + 1` cells, the new cells (including the one read)
all hold the blank, the stored prefix is untouched, and an in-bounds read
leaves the tape unchanged. -/
theorem blank_fill (t : List Char) (pos : Nat) :
    (t.length ≤ pos →
      (extendTape t pos).length = pos + 1 ∧
      (∀ i, t.length ≤ i → i ≤ pos → (extendTape t pos)[i]? = some 'B') ∧
      (∀ i, i < t.length → (extendTape t pos)[i]? = t[i]?)) ∧
    (pos < t.length → extendTape t pos = t) := by
  constructor
  · intro hle
    refine ⟨?_, ?_, ?_⟩
    · simp [extendTape]
      omega
    · intro i hi1 hi2
      unfold extendTape
      rw [List.getElem?_append_right hi1, List.getElem?_replicate]
      rw [if_pos (by omega)]
    · intro i hi
      unfold extendTape
      rw [List.getElem?_append_left hi]
  · intro hlt
    exact extendTape_of_lt hlt

/-- C6 witness: extending `['a']` for a read at position 3 gives length 4,
a blank at position 3, the stored symbol at position 0, and an in-bounds
read of `['a', 'b']` leaves it unchanged. -/
theorem blank_fill_witness :
    (extendTape ['a'] 3).length = 4 ∧
    (extendTape ['a'] 3)[3]? = some 'B' ∧
    (extendTape ['a'] 3)[0]? = ['a'][0]? ∧
    extendTape ['a', 'b'] 1 = ['a', 'b'] := by
  have h := (blank_fill ['a'] 3).1 (by decide)
  exact ⟨h.1, h.2.1 3 (by decide) (by decide), h.2.2 0 (by decide),
    (blank_fill ['a', 'b'] 1).2 (by decide)⟩

/-- C7: the built transition table maps a key to the value of the last
description entry with that key — so one entry yields exactly one row at
`(state, cache_read, tape_read)` with value
`(next, cache_write, tape_write, move)`, any other key is absent, the table
is a partial function, and a duplicate key is silently overwritten by the
later entry. -/
theorem transitions_last_entry_wins :
    (∀ (es : List TransEntry) (k : TKey),
        buildTransitions es k = (es.reverse.find? (fun e => keyOf e == k)).map valOf) ∧
    (∀ e : TransEntry, buildTransitions [e] (keyOf e) = some (valOf e)) ∧
    (∀ (e : TransEntry) (k : TKey), k ≠ keyOf e → buildTransitions [e] k = none) ∧
    (∀ e₁ e₂ : TransEntry, keyOf e₁ = keyOf e₂ →
        buildTransitions [e₁, e₂] (keyOf e₁) = some (valOf e₂)) := by
  refine ⟨buildTransitions_eq_findLast, ?_, ?_, ?_⟩
  · intro e
    show (if keyOf e = keyOf e then some (valOf e) else none) = some (valOf e)
    rw [if_pos rfl]
  · intro e k hk
    show (if k = keyOf e then some (valOf e) else none) = none
    rw [if_neg hk]
  · intro e₁ e₂ h12
    show (if keyOf e₁ = keyOf e₂ then some (valOf e₂)
          else if keyOf e₁ = keyOf e₁ then some (valOf e₁) else none) = some (valOf e₂)
    rw [if_pos h12]

/-- C7 witness: at the shared key of `wEntryA` and `wEntryB`, the table
holds the later entry's value. -/
theorem transitions_last_entry_wins_witness :
    buildTransitions [wEntryA, wEntryB] (keyOf wEntryA) = some (valOf wEntryB) :=
  transitions_last_entry_wins.2.2.2 wEntryA wEntryB rfl

/-- C8 (amended): on every outcome, `run` returns the verdict boolean
together with the final tape rendered spec-side: trailing blanks trimmed,
then every occurrence of `'$'` (not only the leading sentinel) and every
`'B'` removed. -/
theorem run_returns_rendered_output (m : Machine) (s : String) (ms : Int) :
    run m s ms = ((runFull m s ms).1.isAccepted, specOutput (runFull m s ms).2.tape) := by
  show ((runFull m s ms).1.isAccepted, outputString (runFull m s ms).2.tape) = _
  rw [outputString_eq_specOutput]

/-- C8 counterexample: `writeSentinelM` writes a second `'$'` onto the tape;
the code's output string removes it, while the claim's rendering (remove
only the leading sentinel) keeps it — the two disagree. -/
theorem output_strips_all_sentinels_counterexample :
    (run writeSentinelM "" 10).2 = "" ∧
    claimOutput (runFull writeSentinelM "" 10).2.tape = "$" ∧
    (run writeSentinelM "" 10).2 ≠ claimOutput (runFull writeSentinelM "" 10).2.tape := by
  decide

/-- C9: `run` is a pure function of the machine description fields it reads
(`transitions`, `initial_state`, `initial_cache`, `accept_states`) — two
machines agreeing on those fields produce identical verdicts and output
strings on every input and every ceiling, so repeated runs of one machine
are identical and no state persists between runs. -/
theorem run_pure_deterministic (m m' : Machine) (s : String) (ms : Int)
    (ht : m.transitions = m'.transitions) (hi : m.initial_state = m'.initial_state)
    (hc : m.initial_cache = m'.initial_cache) (ha : m.accept_states = m'.accept_states) :
    run m s ms = run m' s ms := by
  unfold run runFull
  rw [show initConfig m s = initConfig m' s from by unfold initConfig; rw [hi, hc]]
  rw [runLoop_congr ms.toNat (initConfig m' s) ht ha]

/-- C9 witness: two machines that differ only in the unread fields
(`states`, the alphabets, `inputs`) run identically. -/
theorem run_pure_deterministic_witness :
    run acceptAtStartM "a" 5 = run acceptAtStartM' "a" 5 :=
  run_pure_deterministic acceptAtStartM acceptAtStartM' "a" 5 rfl rfl rfl rfl

/-- C10: with `max_steps ≤ 0` the loop body — including the acceptance
check — is never entered: `run` returns the step-limit rejection with the
untouched initial configuration and verdict `false`, even when the initial
state is an accept state. -/
theorem nonpositive_max_steps_rejects (m : Machine) (s : String) (ms : Int)
    (h : ms ≤ 0) :
    runFull m s ms = (.rejected .stepLimit, initConfig m s) ∧
    (run m s ms).1 = false := by
  have h0 : ms.toNat = 0 := by omega
  constructor
  · rw [runFull, h0]
    rfl
  · simp [run, runFull, h0, runLoop_zero, Outcome.isAccepted]

/-- C10 witness: a machine whose initial state is accepting still rejects
with `max_steps = 0`. -/
theorem nonpositive_max_steps_rejects_witness :
    runFull acceptAtStartM "" 0 = (.rejected .stepLimit, initConfig acceptAtStartM "") ∧
    (run acceptAtStartM "" 0).1 = false :=
  nonpositive_max_steps_rejects acceptAtStartM "" 0 (by decide)

end TMCache
